import Mathlib

/-!
Shallow embedding of the SGLD cycle runner (`bnn_priors/inference.py`) and of
the sampler interface it drives, with proofs of the behavioural properties
stated in the specification.  Integer-valued Python quantities are embedded
as `ℤ`/`ℕ`, real-valued ones as `ℚ` (exact) or `ℝ` (for the cosine schedule
and the Metropolis-Hastings acceptance threshold, which use `cos`/`exp`).
Quantities produced by the neural-network model and the optimizer (losses,
gradients, per-parameter optimizer state) are inputs to the embedding,
supplied as oracles indexed by the global step count.
-/

/-- Metric keys used by `SGLDRunner.add_scalar`.  The source keys are the
strings `"lr"`, `"loss"`, `"log_prob_accept"` and, for each tracked
parameter name `n`, `"preconditioner/" + n`, `"est_temperature/" + n`,
`"est_config_temp/" + n`; these six shapes are pairwise distinct strings,
so they are encoded as constructors.  Parameter names are drawn from an
arbitrary type `α`. -/
inductive MetricName (α : Type) where
  | lr : MetricName α
  | loss : MetricName α
  | log_prob_accept : MetricName α
  | preconditioner (n : α) : MetricName α
  | est_temperature (n : α) : MetricName α
  | est_config_temp (n : α) : MetricName α
deriving DecidableEq

/-- State of the metric log: the list of values appended so far under each
key, the empty list for keys never written (this matches the
`try`/`except KeyError` in `SGLDRunner.add_scalar`, which creates an empty
list on first use). -/
def Metrics (α : Type) : Type := MetricName α → List ℚ

/-- Embeds `SGLDRunner.add_scalar` (`inference.py` lines 110-117): append
`value` to the series of `name`, creating the series when absent.  The
optional tensorboard summary writer is external output and not modelled. -/
def add_scalar {α : Type} [DecidableEq α] (name : MetricName α) (value : ℚ)
    (m : Metrics α) : Metrics α :=
  fun k => if k = name then m k ++ [value] else m k

/-- Configuration record stored by `SGLDRunner.__init__` (`inference.py`
lines 34-55).  `descent_epochs` and `num_samples` are the derived fields
computed there (lines 37 and 42). -/
structure SGLDRunner where
  epochs_per_cycle : ℤ
  descent_epochs : ℤ
  warmup_epochs : ℤ
  sample_epochs : ℤ
  skip : ℤ
  num_samples : ℤ
  learning_rate : ℚ
  temperature : ℚ
  data_mult : ℚ
  momentum : ℚ
  sampling_decay : Bool
  grad_max : ℚ
  cycles : ℤ
deriving DecidableEq

/-- Errors that `SGLDRunner.__init__` can raise. -/
inductive InitError where
  | zeroDivisionError : InitError
  | negativeTensorSize : InitError
deriving DecidableEq

/-- Embeds `SGLDRunner.__init__` (`inference.py` lines 34-55).  The only
operations there that can raise are the integer division
`sample_epochs // skip` on line 42 (`ZeroDivisionError` when `skip == 0`)
and the buffer allocations `torch.zeros(num_samples*cycles, ...)` on lines
53-55 (a `RuntimeError` when `num_samples*cycles` is negative); every other
line stores an argument or a derived value unconditionally.  Python `//` on
`int` is floor division, embedded as `Int.fdiv`. -/
def SGLDRunner.init (epochs_per_cycle warmup_epochs sample_epochs : ℤ)
    (learning_rate : ℚ) (skip : ℤ) (temperature data_mult momentum : ℚ)
    (sampling_decay : Bool) (grad_max : ℚ) (cycles : ℤ) :
    Except InitError SGLDRunner :=
  if skip = 0 then .error .zeroDivisionError
  else
    let num_samples := Int.fdiv sample_epochs skip
    if num_samples * cycles < 0 then .error .negativeTensorSize
    else
      .ok { epochs_per_cycle := epochs_per_cycle,
            descent_epochs := epochs_per_cycle - warmup_epochs - sample_epochs,
            warmup_epochs := warmup_epochs,
            sample_epochs := sample_epochs,
            skip := skip,
            num_samples := num_samples,
            learning_rate := learning_rate,
            temperature := temperature,
            data_mult := data_mult,
            momentum := momentum,
            sampling_decay := sampling_decay,
            grad_max := grad_max,
            cycles := cycles }

/-- Embeds the element-wise gradient clamp
`p.grad.clamp_(min=-self.grad_max, max=self.grad_max)` (`inference.py`
line 138); `torch.clamp(g, lo, hi)` computes `min(max(g, lo), hi)`. -/
def clampGrad (grad_max g : ℚ) : ℚ := min (max g (-grad_max)) grad_max

/-- Temperature written into every optimizer param group at the start of
epoch `epoch` of a cycle (`inference.py` lines 91-92):
`0 if epoch < self.descent_epochs else self.temperature`. -/
def phaseTemp (r : SGLDRunner) (epoch : ℕ) : ℚ :=
  if (epoch : ℤ) < r.descent_epochs then 0 else r.temperature

/-- Embeds the sample-recording conditional at the end of each epoch of
`SGLDRunner.run` (`inference.py` lines 103-108): compute
`sampling_epoch = epoch - (descent_epochs + warmup_epochs)`; when it is
nonnegative and divisible by `skip`, every tracked parameter and the
current learning rate are stored at buffer index
`num_samples*cycle + sampling_epoch//skip`.  Python `%` and `//` on `int`
are `Int.fmod` and `Int.fdiv`. -/
def sampleWriteOfEpoch (r : SGLDRunner) (cycle epoch : ℕ) : Option ℤ :=
  let sampling_epoch : ℤ := (epoch : ℤ) - (r.descent_epochs + r.warmup_epochs)
  if 0 ≤ sampling_epoch ∧ Int.fmod sampling_epoch r.skip = 0 then
    some (r.num_samples * (cycle : ℤ) + Int.fdiv sampling_epoch r.skip)
  else none

/-- Observable facts about one `SGLDRunner.step` call: the cycle and epoch
it ran in, its within-cycle index `i`, the param-group temperature in
effect when `optimizer.step()` ran, the `temperature=` argument passed to
`model.potential_avg` (the tempering of the differentiated potential), and
the clamped gradient elements handed to `optimizer.step`. -/
structure BatchEvent where
  cycle : ℕ
  epoch : ℕ
  i : ℕ
  groupTemp : ℚ
  potentialTemp : ℚ
  gradsUsed : List ℚ
deriving DecidableEq

/-- Mutable state threaded through `SGLDRunner.run`: the param-group
temperature, the `LambdaLR` step counter, the within-cycle step counter
`step`, `self.prev_loss` (unset before the first step), the metric log, the
sample-buffer writes performed so far (as `(cycle, index)` pairs; each such
write stores a snapshot of every tracked parameter and, in `lrWrites`, the
current learning rate at that index), and the trace of batch steps. -/
structure RunState (α : Type) where
  groupTemp : ℚ
  schedStep : ℕ
  iCount : ℕ
  prev_loss : Option ℚ
  metrics : Metrics α
  writes : List (ℕ × ℤ)
  lrWrites : List (ℤ × ℚ)
  batchEvents : List BatchEvent

/-- Embeds the per-parameter metric logging in `SGLDRunner.step`
(`inference.py` lines 143-147): for each tracked parameter name, append its
preconditioner, estimated kinetic temperature and estimated configurational
temperature.  `pvals n = (preconditioner, est_temperature,
est_config_temp)` is the optimizer state read at this step. -/
def logParamMetrics {α : Type} [DecidableEq α] (names : List α)
    (pvals : α → ℚ × ℚ × ℚ) (m : Metrics α) : Metrics α :=
  names.foldl (fun m n =>
    add_scalar (.est_config_temp n) (pvals n).2.2
      (add_scalar (.est_temperature n) (pvals n).2.1
        (add_scalar (.preconditioner n) (pvals n).1 m))) m

/-- Embeds `SGLDRunner.step` (`inference.py` lines 119-156) with
`lr_decay=True`, as called from `run`.  `lossVal` is the value of
`loss = self.model.potential_avg(x, y, temperature=self.temperature, ...)`;
`rawGrads` are the gradient elements populated by `loss.backward()`;
`sched` is the `LambdaLR` multiplier function, so the learning rate read
back from the param group after `scheduler.step()` is
`learning_rate * sched (schedStep + 1)`.  The `step += 1` of `run`
(line 96) is folded into this transition as the `iCount` increment. -/
def SGLDRunner.step {α : Type} [DecidableEq α] (r : SGLDRunner)
    (names : List α) (pvals : α → ℚ × ℚ × ℚ) (sched : ℕ → ℚ)
    (rawGrads : List ℚ) (lossVal : ℚ) (cycle epoch : ℕ) (st : RunState α) :
    RunState α :=
  -- line 138: clamp every gradient element before optimizer.step()
  let grads := rawGrads.map (clampGrad r.grad_max)
  let ev : BatchEvent :=
    { cycle := cycle, epoch := epoch, i := st.iCount,
      groupTemp := st.groupTemp, potentialTemp := r.temperature,
      gradsUsed := grads }
  -- line 141: scheduler.step()
  let sStep := st.schedStep + 1
  -- lines 143-147: per-parameter metrics
  let m := logParamMetrics names pvals st.metrics
  -- line 149: the "lr" metric reads the group lr after scheduler.step()
  let m := add_scalar .lr (r.learning_rate * sched sStep) m
  -- line 151
  let m := add_scalar .loss lossVal m
  -- lines 152-153
  let m := if 0 < st.iCount then
      add_scalar .log_prob_accept (st.prev_loss.getD 0 - lossVal) m
    else m
  { groupTemp := st.groupTemp, schedStep := sStep, iCount := st.iCount + 1,
    prev_loss := some lossVal, metrics := m, writes := st.writes,
    lrWrites := st.lrWrites, batchEvents := st.batchEvents ++ [ev] }

/-- Embeds one epoch of `SGLDRunner.run` (`inference.py` lines 88-108):
write the phase temperature into every param group, run one `step` per
batch, then possibly record a sample (the `precond_update` trigger on
lines 99-101 does not touch any state modelled here and corresponds to the
default `precond_update=None`). -/
def SGLDRunner.epochPass {α : Type} [DecidableEq α] (r : SGLDRunner)
    (names : List α) (pvals : ℕ → α → ℚ × ℚ × ℚ) (sched : ℕ → ℚ)
    (gradFn : ℕ → List ℚ) (lossFn : ℕ → ℚ) (B : ℕ) (cycle epoch : ℕ)
    (st : RunState α) : RunState α :=
  let st := { st with groupTemp := phaseTemp r epoch }
  let st := (List.range B).foldl
    (fun st _b => SGLDRunner.step r names (pvals st.schedStep) sched
      (gradFn st.schedStep) (lossFn st.schedStep) cycle epoch st) st
  match sampleWriteOfEpoch r cycle epoch with
  | some idx =>
    { st with
      writes := st.writes ++ [(cycle, idx)],
      lrWrites := st.lrWrites ++ [(idx, r.learning_rate * sched st.schedStep)] }
  | none => st

/-- Embeds one cycle of `SGLDRunner.run` (`inference.py` lines 79-108):
reset the within-cycle step counter and run `epochs_per_cycle` epochs.
Python `range` of a negative int is empty, hence `Int.toNat`. -/
def SGLDRunner.cyclePass {α : Type} [DecidableEq α] (r : SGLDRunner)
    (names : List α) (pvals : ℕ → α → ℚ × ℚ × ℚ) (sched : ℕ → ℚ)
    (gradFn : ℕ → List ℚ) (lossFn : ℕ → ℚ) (B : ℕ) (cycle : ℕ)
    (st : RunState α) : RunState α :=
  let st := { st with iCount := 0 }
  (List.range r.epochs_per_cycle.toNat).foldl
    (fun st epoch =>
      SGLDRunner.epochPass r names pvals sched gradFn lossFn B cycle epoch st)
    st

/-- Embeds `SGLDRunner.run` (`inference.py` lines 59-108) with `B` batches
per epoch.  The initial param-group temperature is the configured one (the
`SGLD` optimizer is constructed with `temperature=self.temperature` on
lines 69-72) and the `LambdaLR` counter starts at 0. -/
def SGLDRunner.run {α : Type} [DecidableEq α] (r : SGLDRunner)
    (names : List α) (pvals : ℕ → α → ℚ × ℚ × ℚ) (sched : ℕ → ℚ)
    (gradFn : ℕ → List ℚ) (lossFn : ℕ → ℚ) (B : ℕ) : RunState α :=
  (List.range r.cycles.toNat).foldl
    (fun st cycle =>
      SGLDRunner.cyclePass r names pvals sched gradFn lossFn B cycle st)
    { groupTemp := r.temperature, schedStep := 0, iCount := 0,
      prev_loss := none, metrics := fun _ => [], writes := [],
      lrWrites := [], batchEvents := [] }

/-- Modelled from the spec: `get_cosine_schedule` lives in
`bnn_priors.utils`, which is not among the sources; per spec §4.3 the
learning-rate schedule is a "cosine decay from 1 to 0 over the full
`epochs_per_cycle × batches_per_epoch` steps, reset at the start of every
cycle", so the multiplier at step `s` is
`(1 + cos(π·(s mod T)/T))/2` where `T` is the steps-per-cycle total. -/
noncomputable def get_cosine_schedule (T : ℕ) : ℕ → ℝ :=
  fun s => (1 + Real.cos (Real.pi * ((s % T : ℕ) : ℝ) / (T : ℝ))) / 2

/-- Learning rate of the single param group when the global number of
completed optimizer steps is `s`: `torch.optim.lr_scheduler.LambdaLR`
maintains `lr = base_lr * lr_lambda(step_count)`, and `run` constructs the
lambda as `get_cosine_schedule(len(dataloader) * epochs_per_cycle)`
(`inference.py` lines 74-76). -/
noncomputable def lrAtBatch (r : SGLDRunner) (B s : ℕ) : ℝ :=
  (r.learning_rate : ℝ) * get_cosine_schedule (B * r.epochs_per_cycle.toNat) s

/-- Learning rate in effect at the first batch of epoch `epoch` of cycle
`cycle`, with `B` batches per epoch: by that point
`(cycle * epochs_per_cycle + epoch) * B` optimizer steps have completed. -/
noncomputable def lrAtEpochStart (r : SGLDRunner) (B cycle epoch : ℕ) : ℝ :=
  lrAtBatch r B ((cycle * r.epochs_per_cycle.toNat + epoch) * B)

/-- Modelled from the spec: the state of the `VerletSGLD` sampler
(`bnn_priors.mcmc` is not among the sources; only its test is).  Parameter
values and momentum buffers are families of exact scalars indexed by `ι`;
`saved` is the deep copy of all parameter values and momenta stored by
`initial_step(save_state=True)` (spec §4.1). -/
structure MCState (ι : Type) where
  params : ι → ℚ
  momenta : ι → ℚ
  saved : Option ((ι → ℚ) × (ι → ℚ))

/-- Modelled from the spec (§4.1, `step` items 1-2): the momentum update
`m ← a·m + (1-a)·(-h·g·c)` followed by noise injection, with friction `a`,
step size `h`, preconditioner `c` and the drawn, already-scaled noise
`ν`. -/
def momUpdate (a h c g ν m : ℚ) : ℚ := a * m + (1 - a) * (-(h * g * c)) + ν

/-- Modelled from the spec (§4.1, `step` item 3): the parameter update
`p ← p + h·c·m`. -/
def posUpdate (h c p m : ℚ) : ℚ := p + h * c * m

/-- Modelled from the spec (§4.1): one full discretized Langevin `step`,
per parameter: momentum update with noise, then parameter update.
`gradFn` is the external gradient provider evaluated at the current
parameter values. -/
def VerletSGLD.step {ι : Type} (a h c : ℚ) (gradFn : (ι → ℚ) → ι → ℚ)
    (ν : ι → ℚ) (st : MCState ι) : MCState ι :=
  let g := gradFn st.params
  let m1 := fun i => momUpdate a h c (g i) (ν i) (st.momenta i)
  { params := fun i => posUpdate h c (st.params i) (m1 i),
    momenta := m1,
    saved := st.saved }

/-- Modelled from the spec (§4.1): `initial_step` performs the same update
but only the first half, up to and including the momentum update, and when
`save_state` is true stores a deep copy of all parameter values and momenta
before mutating, to allow restoration on rejection. -/
def VerletSGLD.initial_step {ι : Type} (a h c : ℚ)
    (gradFn : (ι → ℚ) → ι → ℚ) (ν : ι → ℚ) (save_state : Bool)
    (st : MCState ι) : MCState ι :=
  let g := gradFn st.params
  { params := st.params,
    momenta := fun i => momUpdate a h c (g i) (ν i) (st.momenta i),
    saved := if save_state then some (st.params, st.momenta) else st.saved }

/-- Modelled from the spec (§4.1): `final_step` completes the paired
half-step begun by `initial_step`, i.e. performs the remaining parameter
update. -/
def VerletSGLD.final_step {ι : Type} (h c : ℚ) (st : MCState ι) :
    MCState ι :=
  { st with params := fun i => posUpdate h c (st.params i) (st.momenta i) }

/-- Modelled from the spec (§4.1): `maybe_reject(delta_energy)` draws
`u ~ Uniform(0,1)` and rejects iff `u > exp(-delta_energy/temperature)`,
restoring the state saved by `initial_step`; it returns whether it
rejected.  The drawn `u` is an input here.  When nothing was saved the
state is left unchanged (the protocol always saves first). -/
noncomputable def VerletSGLD.maybe_reject {ι : Type}
    (temperature u delta_energy : ℝ) (st : MCState ι) : Bool × MCState ι :=
  if Real.exp (-delta_energy / temperature) < u then
    (true,
      match st.saved with
      | some s => { params := s.1, momenta := s.2, saved := st.saved }
      | none => st)
  else (false, st)

/-- What is always true of a recorded batch step: the param-group
temperature it saw is the phase temperature of its epoch, the potential was
tempered with the configured `self.temperature`, and the gradients passed
to the optimizer are clamped images of the raw gradients. -/
def GoodEv (r : SGLDRunner) (ev : BatchEvent) : Prop :=
  ev.groupTemp = phaseTemp r ev.epoch ∧ ev.potentialTemp = r.temperature ∧
  ∃ raw : List ℚ, ev.gradsUsed = raw.map (clampGrad r.grad_max)

/-- What is always true of a recorded sample-buffer write: it was produced
by the end-of-epoch conditional of some epoch of its cycle. -/
def GoodWrite (r : SGLDRunner) (w : ℕ × ℤ) : Prop :=
  ∃ e : ℕ, e < r.epochs_per_cycle.toNat ∧
    sampleWriteOfEpoch r w.1 e = some w.2

/-- Concrete configuration used to instantiate theorems: the end-to-end
scenario of spec §8, `epochs_per_cycle=10, warmup_epochs=3,
sample_epochs=5, skip=1, cycles=1`, with learning rate 1, temperature 1. -/
def runnerA : SGLDRunner :=
  { epochs_per_cycle := 10, descent_epochs := 2, warmup_epochs := 3,
    sample_epochs := 5, skip := 1, num_samples := 5, learning_rate := 1,
    temperature := 1, data_mult := 1, momentum := 0, sampling_decay := true,
    grad_max := 1000000, cycles := 1 }

/-- Concrete run state used to instantiate `step_metric_appends`: one step
has already happened, its loss 5 is the last recorded loss. -/
def stW : RunState ℕ :=
  { groupTemp := 1, schedStep := 0, iCount := 1, prev_loss := some 5,
    metrics := fun k => if k = .loss then [5] else [], writes := [],
    lrWrites := [], batchEvents := [] }

/-- Concrete per-parameter optimizer-state oracle. -/
def pvalsW : ℕ → ℚ × ℚ × ℚ := fun _ => (1, 2, 3)

/-- Concrete schedule oracle. -/
def schedW : ℕ → ℚ := fun _ => 1

/-- Result of one concrete `SGLDRunner.step` on `stW`. -/
def stW2 : RunState ℕ :=
  SGLDRunner.step runnerA [0] pvalsW schedW [7] 9 0 0 stW

/-- Configuration falsifying the unrestricted slot-range claim:
`epochs_per_cycle=5, warmup_epochs=0, sample_epochs=5, skip=2, cycles=2`,
so `num_samples = 5 // 2 = 2`. -/
def runnerB : SGLDRunner :=
  { epochs_per_cycle := 5, descent_epochs := 0, warmup_epochs := 0,
    sample_epochs := 5, skip := 2, num_samples := 2, learning_rate := 1,
    temperature := 1, data_mult := 1, momentum := 0, sampling_decay := true,
    grad_max := 1000000, cycles := 2 }

/-- Boolean success test for construction results. -/
def isOkB (x : Except InitError SGLDRunner) : Bool :=
  match x with
  | .ok _ => true
  | .error _ => false

/-- Configuration falsifying the unrestricted strict-decrease claim: a
cycle made only of sampling epochs (`epochs_per_cycle = sample_epochs = 1`,
no descent, no warmup), with `sampling_decay` true. -/
def runnerC : SGLDRunner :=
  { epochs_per_cycle := 1, descent_epochs := 0, warmup_epochs := 0,
    sample_epochs := 1, skip := 1, num_samples := 1, learning_rate := 1,
    temperature := 1, data_mult := 1, momentum := 0, sampling_decay := true,
    grad_max := 1000000, cycles := 1 }

/-- Failing configuration for the `sampling_decay` flag: two sampling
epochs only (`epochs_per_cycle=2, warmup_epochs=0, sample_epochs=2`), one
batch per epoch, `sampling_decay=False`. -/
def runnerD : SGLDRunner :=
  { epochs_per_cycle := 2, descent_epochs := 0, warmup_epochs := 0,
    sample_epochs := 2, skip := 1, num_samples := 2, learning_rate := 1,
    temperature := 1, data_mult := 1, momentum := 0, sampling_decay := false,
    grad_max := 1000000, cycles := 1 }

/-- Concrete sampler state with nothing saved yet. -/
def mcW : MCState Unit :=
  { params := fun _ => 3, momenta := fun _ => 4, saved := none }

/-- The first batch event of the concrete `runnerA` run: a descent-phase
step whose param-group temperature is 0 while the potential was still
tempered at the configured temperature 1. -/
def evW : BatchEvent :=
  { cycle := 0, epoch := 0, i := 0, groupTemp := 0, potentialTemp := 1,
    gradsUsed := [2] }

/-- Fold-invariant helper: a property preserved by every step of a left
fold holds of the result. -/
theorem foldl_invariant {α β : Type} (P : β → Prop) (f : β → α → β)
    (l : List α) (b : β) (hb : P b)
    (hf : ∀ x a, a ∈ l → P x → P (f x a)) : P (l.foldl f b) := by
  induction l generalizing b with
  | nil => exact hb
  | cons hd tl ih =>
    exact ih (f b hd) (hf b hd (List.mem_cons_self hd tl) hb)
      (fun x a ha hx => hf x a (List.mem_cons_of_mem hd ha) hx)

theorem add_scalar_same {α : Type} [DecidableEq α] (name : MetricName α)
    (v : ℚ) (m : Metrics α) : add_scalar name v m name = m name ++ [v] := by
  simp [add_scalar]

theorem add_scalar_ne {α : Type} [DecidableEq α] {k name : MetricName α}
    (v : ℚ) (m : Metrics α) (h : k ≠ name) : add_scalar name v m k = m k := by
  simp [add_scalar, h]

theorem add_scalar_le {α : Type} [DecidableEq α] (name k : MetricName α)
    (v : ℚ) (m : Metrics α) : m k <+: add_scalar name v m k := by
  unfold add_scalar
  by_cases h : k = name
  · simp [h]
  · simp [h]

theorem logParamMetrics_nil {α : Type} [DecidableEq α]
    (pvals : α → ℚ × ℚ × ℚ) (m : Metrics α) :
    logParamMetrics ([] : List α) pvals m = m := rfl

theorem logParamMetrics_cons {α : Type} [DecidableEq α] (x : α) (xs : List α)
    (pvals : α → ℚ × ℚ × ℚ) (m : Metrics α) :
    logParamMetrics (x :: xs) pvals m =
      logParamMetrics xs pvals
        (add_scalar (.est_config_temp x) (pvals x).2.2
          (add_scalar (.est_temperature x) (pvals x).2.1
            (add_scalar (.preconditioner x) (pvals x).1 m))) := rfl

theorem logParamMetrics_other {α : Type} [DecidableEq α] (names : List α)
    (pvals : α → ℚ × ℚ × ℚ) (m : Metrics α) (k : MetricName α)
    (hk : ∀ n : α, k ≠ .preconditioner n ∧ k ≠ .est_temperature n ∧
      k ≠ .est_config_temp n) :
    logParamMetrics names pvals m k = m k := by
  induction names generalizing m with
  | nil => rfl
  | cons x xs ih =>
    rw [logParamMetrics_cons, ih,
      add_scalar_ne _ _ (hk x).2.2, add_scalar_ne _ _ (hk x).2.1,
      add_scalar_ne _ _ (hk x).1]

theorem logParamMetrics_lr {α : Type} [DecidableEq α] (names : List α)
    (pvals : α → ℚ × ℚ × ℚ) (m : Metrics α) :
    logParamMetrics names pvals m .lr = m .lr := by
  refine logParamMetrics_other names pvals m _ (fun n => ?_)
  refine ⟨fun h => ?_, fun h => ?_, fun h => ?_⟩ <;> cases h

theorem logParamMetrics_loss {α : Type} [DecidableEq α] (names : List α)
    (pvals : α → ℚ × ℚ × ℚ) (m : Metrics α) :
    logParamMetrics names pvals m .loss = m .loss := by
  refine logParamMetrics_other names pvals m _ (fun n => ?_)
  refine ⟨fun h => ?_, fun h => ?_, fun h => ?_⟩ <;> cases h

theorem logParamMetrics_lpa {α : Type} [DecidableEq α] (names : List α)
    (pvals : α → ℚ × ℚ × ℚ) (m : Metrics α) :
    logParamMetrics names pvals m .log_prob_accept = m .log_prob_accept := by
  refine logParamMetrics_other names pvals m _ (fun n => ?_)
  refine ⟨fun h => ?_, fun h => ?_, fun h => ?_⟩ <;> cases h

theorem logParamMetrics_not_mem {α : Type} [DecidableEq α] {n : α}
    (names : List α) (pvals : α → ℚ × ℚ × ℚ) (m : Metrics α)
    (h : n ∉ names) :
    logParamMetrics names pvals m (.preconditioner n) = m (.preconditioner n)
    ∧ logParamMetrics names pvals m (.est_temperature n) =
        m (.est_temperature n)
    ∧ logParamMetrics names pvals m (.est_config_temp n) =
        m (.est_config_temp n) := by
  induction names generalizing m with
  | nil => exact ⟨rfl, rfl, rfl⟩
  | cons x xs ih =>
    have hxn : x ≠ n := fun he => h (he ▸ List.mem_cons_self x xs)
    have hih := ih (add_scalar (.est_config_temp x) (pvals x).2.2
      (add_scalar (.est_temperature x) (pvals x).2.1
        (add_scalar (.preconditioner x) (pvals x).1 m)))
      (fun hm => h (List.mem_cons_of_mem x hm))
    rw [logParamMetrics_cons]
    refine ⟨?_, ?_, ?_⟩
    · rw [hih.1, add_scalar_ne, add_scalar_ne, add_scalar_ne] <;>
        simp [hxn.symm]
    · rw [hih.2.1, add_scalar_ne, add_scalar_ne, add_scalar_ne] <;>
        simp [hxn.symm]
    · rw [hih.2.2, add_scalar_ne, add_scalar_ne, add_scalar_ne] <;>
        simp [hxn.symm]

theorem logParamMetrics_mem {α : Type} [DecidableEq α] {n : α}
    (names : List α) (pvals : α → ℚ × ℚ × ℚ) (m : Metrics α)
    (hnd : names.Nodup) (hm : n ∈ names) :
    logParamMetrics names pvals m (.preconditioner n) =
        m (.preconditioner n) ++ [(pvals n).1]
    ∧ logParamMetrics names pvals m (.est_temperature n) =
        m (.est_temperature n) ++ [(pvals n).2.1]
    ∧ logParamMetrics names pvals m (.est_config_temp n) =
        m (.est_config_temp n) ++ [(pvals n).2.2] := by
  induction names generalizing m with
  | nil => cases hm
  | cons x xs ih =>
    rw [logParamMetrics_cons]
    rcases List.mem_cons.1 hm with hx | hxs
    · subst hx
      have hnotin : n ∉ xs := (List.nodup_cons.1 hnd).1
      have hrest := logParamMetrics_not_mem xs pvals
        (add_scalar (.est_config_temp n) (pvals n).2.2
          (add_scalar (.est_temperature n) (pvals n).2.1
            (add_scalar (.preconditioner n) (pvals n).1 m))) hnotin
      refine ⟨?_, ?_, ?_⟩
      · rw [hrest.1, add_scalar_ne, add_scalar_ne, add_scalar_same] <;> simp
      · rw [hrest.2.1, add_scalar_ne, add_scalar_same, add_scalar_ne] <;> simp
      · rw [hrest.2.2, add_scalar_same, add_scalar_ne, add_scalar_ne] <;> simp
    · have hxn : x ≠ n := fun he =>
        (List.nodup_cons.1 hnd).1 (he ▸ hxs)
      have hih := ih (add_scalar (.est_config_temp x) (pvals x).2.2
        (add_scalar (.est_temperature x) (pvals x).2.1
          (add_scalar (.preconditioner x) (pvals x).1 m)))
        (List.nodup_cons.1 hnd).2 hxs
      refine ⟨?_, ?_, ?_⟩
      · rw [hih.1, add_scalar_ne, add_scalar_ne, add_scalar_ne] <;>
          simp [hxn.symm]
      · rw [hih.2.1, add_scalar_ne, add_scalar_ne, add_scalar_ne] <;>
          simp [hxn.symm]
      · rw [hih.2.2, add_scalar_ne, add_scalar_ne, add_scalar_ne] <;>
          simp [hxn.symm]

theorem logParamMetrics_le {α : Type} [DecidableEq α] (names : List α)
    (pvals : α → ℚ × ℚ × ℚ) (m : Metrics α) (k : MetricName α) :
    m k <+: logParamMetrics names pvals m k := by
  induction names generalizing m with
  | nil => exact List.prefix_rfl
  | cons x xs ih =>
    rw [logParamMetrics_cons]
    exact List.IsPrefix.trans
      (List.IsPrefix.trans
        (List.IsPrefix.trans
          (add_scalar_le (.preconditioner x) k (pvals x).1 m)
          (add_scalar_le (.est_temperature x) k (pvals x).2.1 _))
        (add_scalar_le (.est_config_temp x) k (pvals x).2.2 _))
      (ih _)

/-- Explicit form of one `SGLDRunner.step` transition, used to unfold the
definition in proofs. -/
theorem SGLDRunner.step_spec {α : Type} [DecidableEq α] (r : SGLDRunner)
    (names : List α) (pvals : α → ℚ × ℚ × ℚ) (sched : ℕ → ℚ)
    (rawGrads : List ℚ) (lossVal : ℚ) (cycle epoch : ℕ) (st : RunState α) :
    SGLDRunner.step r names pvals sched rawGrads lossVal cycle epoch st =
      { groupTemp := st.groupTemp,
        schedStep := st.schedStep + 1,
        iCount := st.iCount + 1,
        prev_loss := some lossVal,
        metrics :=
          (if 0 < st.iCount then
            add_scalar .log_prob_accept (st.prev_loss.getD 0 - lossVal)
              (add_scalar .loss lossVal
                (add_scalar .lr (r.learning_rate * sched (st.schedStep + 1))
                  (logParamMetrics names pvals st.metrics)))
          else
            add_scalar .loss lossVal
              (add_scalar .lr (r.learning_rate * sched (st.schedStep + 1))
                (logParamMetrics names pvals st.metrics))),
        writes := st.writes,
        lrWrites := st.lrWrites,
        batchEvents := st.batchEvents ++
          [{ cycle := cycle, epoch := epoch, i := st.iCount,
             groupTemp := st.groupTemp, potentialTemp := r.temperature,
             gradsUsed := rawGrads.map (clampGrad r.grad_max) }] } := rfl

/-- One epoch preserves the run invariants: all recorded batch events saw
the phase temperature of their epoch, the configured potential tempering
and clamped gradients, and all recorded writes come from the end-of-epoch
conditional. -/
theorem epochPass_good {α : Type} [DecidableEq α] (r : SGLDRunner)
    (names : List α) (pvals : ℕ → α → ℚ × ℚ × ℚ) (sched : ℕ → ℚ)
    (gradFn : ℕ → List ℚ) (lossFn : ℕ → ℚ) (B : ℕ) (cycle epoch : ℕ)
    (st : RunState α) (he : epoch < r.epochs_per_cycle.toNat)
    (hEv : ∀ ev ∈ st.batchEvents, GoodEv r ev)
    (hW : ∀ w ∈ st.writes, GoodWrite r w) :
    (∀ ev ∈ (SGLDRunner.epochPass r names pvals sched gradFn lossFn B cycle
        epoch st).batchEvents, GoodEv r ev) ∧
    (∀ w ∈ (SGLDRunner.epochPass r names pvals sched gradFn lossFn B cycle
        epoch st).writes, GoodWrite r w) := by
  unfold SGLDRunner.epochPass
  set st1 : RunState α := { st with groupTemp := phaseTemp r epoch } with hst1
  have hfold :
      (fun s : RunState α => s.groupTemp = phaseTemp r epoch ∧
        (∀ ev ∈ s.batchEvents, GoodEv r ev) ∧
        (∀ w ∈ s.writes, GoodWrite r w))
      ((List.range B).foldl
        (fun s _b => SGLDRunner.step r names (pvals s.schedStep) sched
          (gradFn s.schedStep) (lossFn s.schedStep) cycle epoch s) st1) := by
    refine foldl_invariant
      (fun s : RunState α => s.groupTemp = phaseTemp r epoch ∧
        (∀ ev ∈ s.batchEvents, GoodEv r ev) ∧
        (∀ w ∈ s.writes, GoodWrite r w)) _ _ _ ⟨rfl, hEv, hW⟩ ?_
    rintro s b _hb ⟨hG, hE, hw⟩
    rw [SGLDRunner.step_spec]
    refine ⟨hG, ?_, hw⟩
    intro ev hev
    rcases List.mem_append.1 hev with hold | hnew
    · exact hE ev hold
    · rcases List.mem_singleton.1 hnew with rfl
      exact ⟨hG, rfl, ⟨gradFn s.schedStep, rfl⟩⟩
  rcases hfold with ⟨_hG, hE, hw⟩
  cases hsw : sampleWriteOfEpoch r cycle epoch with
  | none => simp only [hsw]; exact ⟨hE, hw⟩
  | some idx =>
    simp only [hsw]
    refine ⟨hE, ?_⟩
    intro w hwmem
    rcases List.mem_append.1 hwmem with hold | hnew
    · exact hw w hold
    · rcases List.mem_singleton.1 hnew with rfl
      exact ⟨epoch, he, hsw⟩

/-- The run invariants hold of every batch event and every sample write of
a completed `SGLDRunner.run`. -/
theorem run_good {α : Type} [DecidableEq α] (r : SGLDRunner)
    (names : List α) (pvals : ℕ → α → ℚ × ℚ × ℚ) (sched : ℕ → ℚ)
    (gradFn : ℕ → List ℚ) (lossFn : ℕ → ℚ) (B : ℕ) :
    (∀ ev ∈ (SGLDRunner.run r names pvals sched gradFn lossFn B).batchEvents,
      GoodEv r ev) ∧
    (∀ w ∈ (SGLDRunner.run r names pvals sched gradFn lossFn B).writes,
      GoodWrite r w) := by
  unfold SGLDRunner.run
  refine foldl_invariant
    (fun s : RunState α => (∀ ev ∈ s.batchEvents, GoodEv r ev) ∧
      (∀ w ∈ s.writes, GoodWrite r w)) _ _ _
    ⟨fun ev hev => absurd hev (List.not_mem_nil ev),
     fun w hw => absurd hw (List.not_mem_nil w)⟩ ?_
  rintro s cycle _hc ⟨hE, hW⟩
  unfold SGLDRunner.cyclePass
  refine foldl_invariant
    (fun s : RunState α => (∀ ev ∈ s.batchEvents, GoodEv r ev) ∧
      (∀ w ∈ s.writes, GoodWrite r w)) _ _ _ ⟨hE, hW⟩ ?_
  rintro s2 epoch hep ⟨hE2, hW2⟩
  exact epochPass_good r names pvals sched gradFn lossFn B cycle epoch s2
    (List.mem_range.1 hep) hE2 hW2

/-- `runnerA` is exactly what `__init__` constructs from the §8 scenario
arguments. -/
theorem runnerA_init :
    SGLDRunner.init 10 3 5 1 1 1 1 0 true 1000000 1 = .ok runnerA := rfl

/-- C5: in every cycle, every epoch with index below
`descent_epochs = epochs_per_cycle - warmup_epochs - sample_epochs` has the
temperature field of every optimizer param group set to 0 before any batch
step of that epoch runs, and every later epoch of the cycle has it set to
the configured temperature; consequently every recorded batch step saw
exactly the phase temperature of its epoch. -/
theorem descent_warmup_sampling_temperature {α : Type} [DecidableEq α]
    (r : SGLDRunner) (names : List α) (pvals : ℕ → α → ℚ × ℚ × ℚ)
    (sched : ℕ → ℚ) (gradFn : ℕ → List ℚ) (lossFn : ℕ → ℚ) (B : ℕ)
    (hr : r.descent_epochs =
      r.epochs_per_cycle - r.warmup_epochs - r.sample_epochs) :
    ∀ ev ∈ (SGLDRunner.run r names pvals sched gradFn lossFn B).batchEvents,
      ev.groupTemp = if (ev.epoch : ℤ) <
          r.epochs_per_cycle - r.warmup_epochs - r.sample_epochs then 0
        else r.temperature := by
  intro ev hev
  have h := (run_good r names pvals sched gradFn lossFn B).1 ev hev
  rw [h.1, phaseTemp, hr]

theorem descent_warmup_sampling_temperature_witness :
    (runnerA.descent_epochs =
      runnerA.epochs_per_cycle - runnerA.warmup_epochs -
        runnerA.sample_epochs) ∧
    (∀ ev ∈ (SGLDRunner.run runnerA [0] (fun _ _ => (1, 1, 1)) (fun _ => 1)
        (fun _ => [2]) (fun _ => 0) 1).batchEvents,
      ev.groupTemp = if (ev.epoch : ℤ) <
          runnerA.epochs_per_cycle - runnerA.warmup_epochs -
            runnerA.sample_epochs then 0
        else runnerA.temperature) :=
  ⟨by decide,
    descent_warmup_sampling_temperature runnerA [0] (fun _ _ => (1, 1, 1))
      (fun _ => 1) (fun _ => [2]) (fun _ => 0) 1 (by decide)⟩

/-- C10: on every step, also during the descent phase, the differentiated
loss is the model potential evaluated at the configured `self.temperature`;
the descent phase only changes the optimizer param groups' temperature
field (to 0), never the tempering of the potential. -/
theorem potential_always_configured_temperature {α : Type} [DecidableEq α]
    (r : SGLDRunner) (names : List α) (pvals : ℕ → α → ℚ × ℚ × ℚ)
    (sched : ℕ → ℚ) (gradFn : ℕ → List ℚ) (lossFn : ℕ → ℚ) (B : ℕ) :
    ∀ ev ∈ (SGLDRunner.run r names pvals sched gradFn lossFn B).batchEvents,
      ev.potentialTemp = r.temperature ∧
      ((ev.epoch : ℤ) < r.descent_epochs → ev.groupTemp = 0) := by
  intro ev hev
  have h := (run_good r names pvals sched gradFn lossFn B).1 ev hev
  refine ⟨h.2.1, fun hlt => ?_⟩
  rw [h.1, phaseTemp, if_pos hlt]

/-- C8: when `SGLDRunner.step` invokes `optimizer.step()`, every gradient
element handed to the sampler lies within `[-grad_max, grad_max]`, because
the runner clamps the raw gradients element-wise beforehand on every
step. -/
theorem gradients_clamped_at_optimizer_step {α : Type} [DecidableEq α]
    (r : SGLDRunner) (names : List α) (pvals : ℕ → α → ℚ × ℚ × ℚ)
    (sched : ℕ → ℚ) (gradFn : ℕ → List ℚ) (lossFn : ℕ → ℚ) (B : ℕ)
    (h : 0 ≤ r.grad_max) :
    ∀ ev ∈ (SGLDRunner.run r names pvals sched gradFn lossFn B).batchEvents,
      ∀ g ∈ ev.gradsUsed, -r.grad_max ≤ g ∧ g ≤ r.grad_max := by
  intro ev hev g hg
  obtain ⟨-, -, raw, hraw⟩ := (run_good r names pvals sched gradFn lossFn B).1
    ev hev
  rw [hraw] at hg
  obtain ⟨x, -, rfl⟩ := List.mem_map.1 hg
  unfold clampGrad
  constructor
  · exact le_min (le_max_right x (-r.grad_max)) (by linarith)
  · exact min_le_right _ _

theorem gradients_clamped_at_optimizer_step_witness :
    ((0 : ℚ) ≤ runnerA.grad_max) ∧
    (∀ ev ∈ (SGLDRunner.run runnerA [0] (fun _ _ => (1, 1, 1)) (fun _ => 1)
        (fun _ => [2]) (fun _ => 0) 1).batchEvents,
      ∀ g ∈ ev.gradsUsed, -runnerA.grad_max ≤ g ∧ g ≤ runnerA.grad_max) :=
  ⟨by norm_num [runnerA],
    gradients_clamped_at_optimizer_step runnerA [0] (fun _ _ => (1, 1, 1))
      (fun _ => 1) (fun _ => [2]) (fun _ => 0) 1 (by norm_num [runnerA])⟩

/-- C9: every `SGLDRunner.step` call appends exactly one value to each of
the metrics `lr`, `loss` and the per-parameter
preconditioner/est_temperature/est_config_temp series; for a step with
within-cycle index `i > 0` it appends exactly one `log_prob_accept` value
equal to the loss recorded at the previous step minus the current loss,
and none when `i = 0`; metrics are only ever appended to, never
overwritten or truncated. -/
theorem step_metric_appends {α : Type} [DecidableEq α] (r : SGLDRunner)
    (names : List α) (pvals : α → ℚ × ℚ × ℚ) (sched : ℕ → ℚ)
    (rawGrads : List ℚ) (lossVal : ℚ) (cycle epoch : ℕ) (st : RunState α)
    (st' : RunState α) (hnd : names.Nodup)
    (hprev : st.prev_loss = (st.metrics .loss).getLast?)
    (hst : st' = SGLDRunner.step r names pvals sched rawGrads lossVal cycle
      epoch st) :
    (st'.metrics .lr = st.metrics .lr ++
      [r.learning_rate * sched (st.schedStep + 1)])
    ∧ (st'.metrics .loss = st.metrics .loss ++ [lossVal])
    ∧ (∀ n ∈ names,
        st'.metrics (.preconditioner n) =
          st.metrics (.preconditioner n) ++ [(pvals n).1]
        ∧ st'.metrics (.est_temperature n) =
          st.metrics (.est_temperature n) ++ [(pvals n).2.1]
        ∧ st'.metrics (.est_config_temp n) =
          st.metrics (.est_config_temp n) ++ [(pvals n).2.2])
    ∧ (0 < st.iCount →
        st'.metrics .log_prob_accept = st.metrics .log_prob_accept ++
          [((st.metrics .loss).getLast?).getD 0 - lossVal])
    ∧ (st.iCount = 0 →
        st'.metrics .log_prob_accept = st.metrics .log_prob_accept)
    ∧ (∀ k, st.metrics k <+: st'.metrics k)
    ∧ st'.prev_loss = (st'.metrics .loss).getLast? := by
  subst hst
  rw [SGLDRunner.step_spec]
  by_cases hi : 0 < st.iCount
  · simp only [hi, if_true]
    refine ⟨?_, ?_, ?_, ?_, ?_, ?_, ?_⟩
    · simp [add_scalar, logParamMetrics_lr]
    · simp [add_scalar, logParamMetrics_loss]
    · intro n hn
      have h3 := logParamMetrics_mem names pvals st.metrics hnd hn
      exact ⟨by simp [add_scalar, h3.1], by simp [add_scalar, h3.2.1],
        by simp [add_scalar, h3.2.2]⟩
    · intro _
      simp [add_scalar, logParamMetrics_lpa, hprev]
    · intro h0
      exact absurd h0 (Nat.pos_iff_ne_zero.1 hi)
    · intro k
      exact (((logParamMetrics_le names pvals st.metrics k).trans
        (add_scalar_le .lr k _ _)).trans
        (add_scalar_le .loss k _ _)).trans
        (add_scalar_le .log_prob_accept k _ _)
    · simp [add_scalar, logParamMetrics_loss]
  · simp only [hi, if_false]
    refine ⟨?_, ?_, ?_, ?_, ?_, ?_, ?_⟩
    · simp [add_scalar, logParamMetrics_lr]
    · simp [add_scalar, logParamMetrics_loss]
    · intro n hn
      have h3 := logParamMetrics_mem names pvals st.metrics hnd hn
      exact ⟨by simp [add_scalar, h3.1], by simp [add_scalar, h3.2.1],
        by simp [add_scalar, h3.2.2]⟩
    · exact fun h0 => h0.elim
    · intro _
      simp [add_scalar, logParamMetrics_lpa]
    · intro k
      exact ((logParamMetrics_le names pvals st.metrics k).trans
        (add_scalar_le .lr k _ _)).trans
        (add_scalar_le .loss k _ _)
    · simp [add_scalar, logParamMetrics_loss]

theorem step_metric_appends_witness :
    ([0] : List ℕ).Nodup ∧
    stW.prev_loss = (stW.metrics .loss).getLast? ∧
    ((stW2.metrics .lr = stW.metrics .lr ++
        [runnerA.learning_rate * schedW (stW.schedStep + 1)])
      ∧ (stW2.metrics .loss = stW.metrics .loss ++ [9])
      ∧ (∀ n ∈ ([0] : List ℕ),
          stW2.metrics (.preconditioner n) =
            stW.metrics (.preconditioner n) ++ [(pvalsW n).1]
          ∧ stW2.metrics (.est_temperature n) =
            stW.metrics (.est_temperature n) ++ [(pvalsW n).2.1]
          ∧ stW2.metrics (.est_config_temp n) =
            stW.metrics (.est_config_temp n) ++ [(pvalsW n).2.2])
      ∧ (0 < stW.iCount →
          stW2.metrics .log_prob_accept = stW.metrics .log_prob_accept ++
            [((stW.metrics .loss).getLast?).getD 0 - 9])
      ∧ (stW.iCount = 0 →
          stW2.metrics .log_prob_accept = stW.metrics .log_prob_accept)
      ∧ (∀ k, stW.metrics k <+: stW2.metrics k)
      ∧ stW2.prev_loss = (stW2.metrics .loss).getLast?) :=
  ⟨by decide, by decide,
    step_metric_appends runnerA [0] pvalsW schedW [7] 9 0 0 stW stW2
      (by decide) (by decide) rfl⟩

/-- Slot-range arithmetic for one sample-buffer write: under a valid epoch
split with `skip` dividing `sample_epochs`, the index written at any epoch
of cycle `c` lies in `[num_samples*c, num_samples*(c+1))`. -/
theorem sampleWriteOfEpoch_bounds (r : SGLDRunner) (c e : ℕ)
    (he : e < r.epochs_per_cycle.toNat) (hskip : 0 < r.skip)
    (hdvd : r.skip ∣ r.sample_epochs)
    (hsplit : r.descent_epochs + r.warmup_epochs + r.sample_epochs =
      r.epochs_per_cycle)
    (hnum : r.num_samples = Int.fdiv r.sample_epochs r.skip) (idx : ℤ)
    (hw : sampleWriteOfEpoch r c e = some idx) :
    r.num_samples * (c : ℤ) ≤ idx ∧ idx < r.num_samples * ((c : ℤ) + 1) := by
  unfold sampleWriteOfEpoch at hw
  set se : ℤ := (e : ℤ) - (r.descent_epochs + r.warmup_epochs) with hse
  by_cases hcond : 0 ≤ se ∧ Int.fmod se r.skip = 0
  · rw [if_pos hcond] at hw
    injection hw with hw
    have hEe : (e : ℤ) < r.epochs_per_cycle := Int.lt_toNat.mp he
    have hseS : se ≤ r.sample_epochs - 1 := by omega
    have hknn : (0 : ℤ) ≤ r.skip := le_of_lt hskip
    have hfd : Int.fdiv se r.skip = se / r.skip := Int.fdiv_eq_ediv se hknn
    have hfn : Int.fdiv r.sample_epochs r.skip = r.sample_epochs / r.skip :=
      Int.fdiv_eq_ediv r.sample_epochs hknn
    have ht0 : 0 ≤ se / r.skip := Int.ediv_nonneg hcond.1 hknn
    have hcancel : r.sample_epochs / r.skip * r.skip = r.sample_epochs :=
      Int.ediv_mul_cancel hdvd
    have htlt : se / r.skip < r.sample_epochs / r.skip := by
      rw [Int.ediv_lt_iff_lt_mul hskip, hcancel]
      omega
    rw [← hw, hnum, hfn, hfd]
    constructor
    · omega
    · have : r.sample_epochs / r.skip * ((c : ℤ) + 1) =
        r.sample_epochs / r.skip * (c : ℤ) + r.sample_epochs / r.skip := by
        ring
      omega
  · rw [if_neg hcond] at hw
    cases hw

/-- C1 (amended): provided `skip` divides `sample_epochs` (and the epoch
split is the one `__init__` computes, with positive `skip`), every
sample-buffer write of cycle `c` during `run()` lands at an index in
`[num_samples*c, num_samples*(c+1))`; and in the concrete scenario
`epochs_per_cycle=10, warmup_epochs=3, sample_epochs=5, skip=1, cycles=1`
the writes are exactly at indices 0,1,2,3,4 of the capacity-5 buffer — 5
snapshots per tracked parameter and 5 recorded learning rates.  Without
the divisibility hypothesis the slot-range claim is false (see the
counterexample theorem about `runnerB`). -/
theorem sample_writes_land_in_cycle_slots {α : Type} [DecidableEq α]
    (r : SGLDRunner) (names : List α) (pvals : ℕ → α → ℚ × ℚ × ℚ)
    (sched : ℕ → ℚ) (gradFn : ℕ → List ℚ) (lossFn : ℕ → ℚ) (B : ℕ)
    (hskip : 0 < r.skip) (hdvd : r.skip ∣ r.sample_epochs)
    (hsplit : r.descent_epochs + r.warmup_epochs + r.sample_epochs =
      r.epochs_per_cycle)
    (hnum : r.num_samples = Int.fdiv r.sample_epochs r.skip) :
    (∀ w ∈ (SGLDRunner.run r names pvals sched gradFn lossFn B).writes,
      r.num_samples * (w.1 : ℤ) ≤ w.2 ∧
        w.2 < r.num_samples * ((w.1 : ℤ) + 1))
    ∧ (SGLDRunner.run runnerA ([0] : List ℕ) (fun _ _ => (1, 1, 1))
        (fun _ => 1) (fun _ => [2]) (fun _ => 0) 1).writes =
      [(0, 0), (0, 1), (0, 2), (0, 3), (0, 4)]
    ∧ (SGLDRunner.run runnerA ([0] : List ℕ) (fun _ _ => (1, 1, 1))
        (fun _ => 1) (fun _ => [2]) (fun _ => 0) 1).lrWrites.length = 5
    ∧ runnerA.num_samples * runnerA.cycles = 5 := by
  refine ⟨?_, by decide, by decide, by decide⟩
  intro w hw
  obtain ⟨e, he, hsw⟩ :=
    (run_good r names pvals sched gradFn lossFn B).2 w hw
  exact sampleWriteOfEpoch_bounds r w.1 e he hskip hdvd hsplit hnum w.2 hsw

theorem sample_writes_land_in_cycle_slots_witness :
    (0 < runnerA.skip) ∧ (runnerA.skip ∣ runnerA.sample_epochs) ∧
    (runnerA.descent_epochs + runnerA.warmup_epochs + runnerA.sample_epochs =
      runnerA.epochs_per_cycle) ∧
    (runnerA.num_samples = Int.fdiv runnerA.sample_epochs runnerA.skip) ∧
    ((∀ w ∈ (SGLDRunner.run runnerA ([0] : List ℕ) (fun _ _ => (1, 1, 1))
        (fun _ => 1) (fun _ => [2]) (fun _ => 0) 1).writes,
      runnerA.num_samples * (w.1 : ℤ) ≤ w.2 ∧
        w.2 < runnerA.num_samples * ((w.1 : ℤ) + 1))
    ∧ (SGLDRunner.run runnerA ([0] : List ℕ) (fun _ _ => (1, 1, 1))
        (fun _ => 1) (fun _ => [2]) (fun _ => 0) 1).writes =
      [(0, 0), (0, 1), (0, 2), (0, 3), (0, 4)]
    ∧ (SGLDRunner.run runnerA ([0] : List ℕ) (fun _ _ => (1, 1, 1))
        (fun _ => 1) (fun _ => [2]) (fun _ => 0) 1).lrWrites.length = 5
    ∧ runnerA.num_samples * runnerA.cycles = 5) :=
  ⟨by decide, ⟨5, by decide⟩, by decide, by decide,
    sample_writes_land_in_cycle_slots runnerA ([0] : List ℕ)
      (fun _ _ => (1, 1, 1)) (fun _ => 1) (fun _ => [2]) (fun _ => 0) 1
      (by decide) ⟨5, by decide⟩ (by decide) (by decide)⟩

/-- `runnerB` is exactly what `__init__` constructs from its arguments. -/
theorem runnerB_init :
    SGLDRunner.init 5 0 5 1 2 1 1 0 true 1000000 2 = .ok runnerB := rfl

/-- C1 counterexample: with `epochs_per_cycle=5, warmup_epochs=0,
sample_epochs=5, skip=2, cycles=2` (a configuration `__init__` accepts),
cycle 0 writes at sampling offsets 0, 2, 4, and the offset-4 write lands at
buffer index `2*0 + 4//2 = 2`, which is outside cycle 0's slot range
`[0*num_samples, 1*num_samples) = [0, 2)` — it silently overwrites cycle
1's first slot. -/
theorem sample_write_outside_cycle_slots :
    ((0, (2 : ℤ)) ∈ (SGLDRunner.run runnerB ([0] : List ℕ)
      (fun _ _ => (1, 1, 1)) (fun _ => 1) (fun _ => [2]) (fun _ => 0)
      1).writes)
    ∧ ¬((2 : ℤ) < runnerB.num_samples * ((0 : ℤ) + 1)) := by decide

/-- C2 (amended): `SGLDRunner.__init__` performs no configuration
validation; it raises exactly when `skip = 0` (the `ZeroDivisionError` of
`sample_epochs // skip`) or when the computed buffer length
`(sample_epochs // skip) * cycles` is negative (the `torch.zeros`
allocation).  In particular a configuration with
`epochs_per_cycle < warmup_epochs + sample_epochs` is accepted, storing a
negative `descent_epochs` without clamping, and `num_samples = 0` is
accepted silently. -/
theorem init_error_characterization (E w s : ℤ) (lr : ℚ) (k : ℤ)
    (T dm mo : ℚ) (sd : Bool) (gm : ℚ) (cy : ℤ) :
    (isOkB (SGLDRunner.init E w s lr k T dm mo sd gm cy) = false ↔
      k = 0 ∨ Int.fdiv s k * cy < 0)
    ∧ (∀ r : SGLDRunner, SGLDRunner.init E w s lr k T dm mo sd gm cy = .ok r →
        r.descent_epochs = E - w - s ∧ r.num_samples = Int.fdiv s k) := by
  unfold SGLDRunner.init
  by_cases h1 : k = 0
  · simp [h1, isOkB]
  · by_cases h2 : Int.fdiv s k * cy < 0
    · simp [h1, h2, isOkB]
    · simp only [h1, h2, if_false, isOkB]
      constructor
      · simp [h1, h2]
      · intro r hr
        injection hr with hr
        subst hr
        exact ⟨rfl, rfl⟩

/-- C2 counterexample: construction succeeds (no error is raised) on the
invalid configuration `epochs_per_cycle=5 < warmup_epochs + sample_epochs
= 3 + 5`, and also when the computed number of samples per cycle is 0
(`sample_epochs=1, skip=2`); the claimed fail-fast validation does not
exist. -/
theorem init_accepts_invalid_configuration :
    (isOkB (SGLDRunner.init 5 3 5 1 1 1 1 0 true 1000000 1) = true)
    ∧ ((5 : ℤ) < 3 + 5)
    ∧ (SGLDRunner.init 10 3 1 1 2 1 1 0 true 1000000 1 =
        .ok { epochs_per_cycle := 10, descent_epochs := 6,
              warmup_epochs := 3, sample_epochs := 1, skip := 2,
              num_samples := 0, learning_rate := 1, temperature := 1,
              data_mult := 1, momentum := 0, sampling_decay := true,
              grad_max := 1000000, cycles := 1 }) :=
  ⟨by decide, by decide, rfl⟩

/-- C4 (amended): the learning rate at the first step of every cycle equals
the initial learning rate (cosine schedule reset at every cycle start);
and, within any cycle, when the cycle has at least one pre-sampling
(descent or warmup) epoch, at least one batch per epoch and a positive
learning rate, the learning rate at the first sampling epoch is strictly
below the learning rate at epoch 0 of the cycle.  When the sampling phase
starts at epoch 0 the two rates are equal, so the unrestricted strict
inequality of the claim fails (see the counterexample theorem about
`runnerC`). -/
theorem lr_cycle_reset_and_decay (r : SGLDRunner) (B cycle : ℕ)
    (hB : 0 < B) (hlr : 0 < r.learning_rate)
    (hpre : 0 < r.descent_epochs + r.warmup_epochs)
    (hlt : r.descent_epochs + r.warmup_epochs < r.epochs_per_cycle) :
    (∀ c : ℕ, lrAtEpochStart r B c 0 = (r.learning_rate : ℝ))
    ∧ lrAtEpochStart r B cycle
        ((r.descent_epochs + r.warmup_epochs).toNat) <
      lrAtEpochStart r B cycle 0 := by
  have hEpos : (0 : ℤ) < r.epochs_per_cycle := lt_trans hpre hlt
  constructor
  · intro c
    unfold lrAtEpochStart lrAtBatch get_cosine_schedule
    have h : (c * r.epochs_per_cycle.toNat + 0) * B =
        B * r.epochs_per_cycle.toNat * c := by ring
    rw [h, Nat.mul_mod_right]
    norm_num
  · unfold lrAtEpochStart lrAtBatch get_cosine_schedule
    set EN := r.epochs_per_cycle.toNat with hEN
    set P := (r.descent_epochs + r.warmup_epochs).toNat with hP
    have hP1 : 0 < P := Int.lt_toNat.mpr (by exact_mod_cast hpre)
    have hPE : P < EN := (Int.toNat_lt_toNat hEpos).mpr hlt
    have hEN0 : 0 < EN := lt_trans hP1 hPE
    have hm0 : ((cycle * EN + 0) * B) % (B * EN) = 0 := by
      have h : (cycle * EN + 0) * B = B * EN * cycle := by ring
      rw [h, Nat.mul_mod_right]
    have hPBlt : P * B < B * EN := by
      rw [mul_comm B EN]
      exact mul_lt_mul_of_pos_right hPE hB
    have hm1 : ((cycle * EN + P) * B) % (B * EN) = P * B := by
      have h : (cycle * EN + P) * B = P * B + B * EN * cycle := by ring
      rw [h, Nat.add_mul_mod_self_left, Nat.mod_eq_of_lt hPBlt]
    rw [hm0, hm1]
    have hx0 : (0 : ℝ) < ((P * B : ℕ) : ℝ) :=
      Nat.cast_pos.mpr (Nat.mul_pos hP1 hB)
    have hTpos : (0 : ℝ) < ((B * EN : ℕ) : ℝ) :=
      Nat.cast_pos.mpr (Nat.mul_pos hB hEN0)
    have hfrac_pos : 0 < ((P * B : ℕ) : ℝ) / ((B * EN : ℕ) : ℝ) :=
      div_pos hx0 hTpos
    have hfrac_le : ((P * B : ℕ) : ℝ) / ((B * EN : ℕ) : ℝ) ≤ 1 := by
      rw [div_le_one hTpos]
      exact_mod_cast le_of_lt hPBlt
    have hxpos : 0 < Real.pi * ((P * B : ℕ) : ℝ) / ((B * EN : ℕ) : ℝ) := by
      rw [mul_div_assoc]
      exact mul_pos Real.pi_pos hfrac_pos
    have hxle : Real.pi * ((P * B : ℕ) : ℝ) / ((B * EN : ℕ) : ℝ) ≤ Real.pi := by
      rw [mul_div_assoc]
      have h := mul_le_mul_of_nonneg_left hfrac_le Real.pi_pos.le
      simpa using h
    have hcos : Real.cos (Real.pi * ((P * B : ℕ) : ℝ) / ((B * EN : ℕ) : ℝ)) < 1 := by
      have h := Real.strictAntiOn_cos ⟨le_refl (0 : ℝ), Real.pi_pos.le⟩
        ⟨le_of_lt hxpos, hxle⟩ hxpos
      rwa [Real.cos_zero] at h
    have hlrR : (0 : ℝ) < (r.learning_rate : ℝ) := by exact_mod_cast hlr
    have h2 : (1 + Real.cos (Real.pi * ((P * B : ℕ) : ℝ) / ((B * EN : ℕ) : ℝ))) / 2
        < 1 := by linarith
    have h3 := mul_lt_mul_of_pos_left h2 hlrR
    simpa using h3

theorem lr_cycle_reset_and_decay_witness :
    (0 < 1) ∧ (0 < runnerA.learning_rate) ∧
    (0 < runnerA.descent_epochs + runnerA.warmup_epochs) ∧
    (runnerA.descent_epochs + runnerA.warmup_epochs <
      runnerA.epochs_per_cycle) ∧
    ((∀ c : ℕ, lrAtEpochStart runnerA 1 c 0 = (runnerA.learning_rate : ℝ))
    ∧ lrAtEpochStart runnerA 1 0
        ((runnerA.descent_epochs + runnerA.warmup_epochs).toNat) <
      lrAtEpochStart runnerA 1 0 0) :=
  ⟨by decide, by decide, by decide, by decide,
    lr_cycle_reset_and_decay runnerA 1 0 (by decide) (by decide) (by decide)
      (by decide)⟩

/-- `runnerC` is exactly what `__init__` constructs from its arguments. -/
theorem runnerC_init :
    SGLDRunner.init 1 0 1 1 1 1 1 0 true 1000000 1 = .ok runnerC := rfl

/-- C4 counterexample: in the configuration `runnerC` the sampling phase
starts at epoch 0, so the learning rate at the first sampling epoch equals
the learning rate at epoch 0 of the cycle — the claimed strict inequality
fails. -/
theorem lr_first_sampling_epoch_not_strictly_less :
    ¬(lrAtEpochStart runnerC 1 0
        ((runnerC.descent_epochs + runnerC.warmup_epochs).toNat) <
      lrAtEpochStart runnerC 1 0 0) := by
  have h : (runnerC.descent_epochs + runnerC.warmup_epochs).toNat = 0 := rfl
  rw [h]
  exact lt_irrefl _

/-- `runnerD` is exactly what `__init__` constructs from its arguments. -/
theorem runnerD_init :
    SGLDRunner.init 2 0 2 1 1 1 1 0 false 1000000 1 = .ok runnerD := rfl

/-- C3: the `sampling_decay` flag is stored but never read: `run` and
`step` behave identically for both flag values (first two conjuncts,
definitional on the embedding because no operation inspects the field),
and with `sampling_decay=False` the learning rate still follows the cosine
decay inside the sampling phase: in `runnerD` both epochs of the cycle are
sampling epochs, yet the rate at epoch 1 (1/2) differs from the rate at
the start of the sampling phase, epoch 0 (1), contradicting the documented
behaviour that the rate be held constant during sampling. -/
theorem sampling_decay_flag_has_no_effect {α : Type} [DecidableEq α]
    (r : SGLDRunner) (b : Bool) (names : List α)
    (pvals : ℕ → α → ℚ × ℚ × ℚ) (sched : ℕ → ℚ) (gradFn : ℕ → List ℚ)
    (lossFn : ℕ → ℚ) (B : ℕ) :
    (SGLDRunner.run { r with sampling_decay := b } names pvals sched gradFn
        lossFn B =
      SGLDRunner.run r names pvals sched gradFn lossFn B)
    ∧ (lrAtBatch { r with sampling_decay := b } B = lrAtBatch r B)
    ∧ lrAtEpochStart runnerD 1 0 1 ≠ lrAtEpochStart runnerD 1 0 0 := by
  refine ⟨rfl, rfl, ?_⟩
  unfold lrAtEpochStart lrAtBatch get_cosine_schedule
  have h1 : ((0 * runnerD.epochs_per_cycle.toNat + 1) * 1) %
      (1 * runnerD.epochs_per_cycle.toNat) = 1 := by decide
  have h0 : ((0 * runnerD.epochs_per_cycle.toNat + 0) * 1) %
      (1 * runnerD.epochs_per_cycle.toNat) = 0 := by decide
  rw [h1, h0]
  have hT : ((1 * runnerD.epochs_per_cycle.toNat : ℕ) : ℝ) = 2 := by
    have h2 : (1 * runnerD.epochs_per_cycle.toNat : ℕ) = 2 := by decide
    rw [h2]
    norm_num
  rw [hT]
  have harg : Real.pi * ((1 : ℕ) : ℝ) / 2 = Real.pi / 2 := by
    norm_num
  rw [harg, Real.cos_pi_div_two]
  have harg0 : Real.pi * ((0 : ℕ) : ℝ) / 2 = 0 := by norm_num
  rw [harg0, Real.cos_zero]
  norm_num [runnerD]

/-- Interior full steps preserve the saved snapshot. -/
theorem foldl_step_saved {ι : Type} (a h c : ℚ)
    (gradFn : (ι → ℚ) → ι → ℚ) (l : List (ι → ℚ)) (st : MCState ι) :
    (l.foldl (fun s ν => VerletSGLD.step a h c gradFn ν s) st).saved =
      st.saved := by
  induction l generalizing st with
  | nil => rfl
  | cons x xs ih => exact ih (VerletSGLD.step a h c gradFn x st)

/-- C7: executing `initial_step` followed by `final_step` is equivalent to
executing one full `step`: the resulting parameter values, momenta and the
loss recomputed from the parameters agree (exactly, in this
exact-arithmetic model; hence within any floating tolerance). -/
theorem initial_final_equals_full_step {ι : Type} (a h c : ℚ)
    (gradFn : (ι → ℚ) → ι → ℚ) (lossFn : (ι → ℚ) → ℚ) (ν : ι → ℚ)
    (save_state : Bool) (st : MCState ι) :
    (VerletSGLD.final_step h c
        (VerletSGLD.initial_step a h c gradFn ν save_state st)).params =
      (VerletSGLD.step a h c gradFn ν st).params
    ∧ (VerletSGLD.final_step h c
        (VerletSGLD.initial_step a h c gradFn ν save_state st)).momenta =
      (VerletSGLD.step a h c gradFn ν st).momenta
    ∧ lossFn (VerletSGLD.final_step h c
        (VerletSGLD.initial_step a h c gradFn ν save_state st)).params =
      lossFn (VerletSGLD.step a h c gradFn ν st).params :=
  ⟨rfl, rfl, rfl⟩

/-- C6: after `initial_step(save_state=True)`, any number of interior full
steps and a `final_step`, a rejecting `maybe_reject` (which rejects iff the
drawn `u` exceeds `exp(-delta_energy/temperature)`) restores every
parameter value and every momentum buffer exactly to the snapshot saved by
the `initial_step`, and the potential recomputed after rejection equals
the pre-step loss exactly. -/
theorem maybe_reject_restores_saved_state {ι : Type} (a h c : ℚ)
    (gradFn : (ι → ℚ) → ι → ℚ) (lossFn : (ι → ℚ) → ℚ) (ν1 : ι → ℚ)
    (interior : List (ι → ℚ)) (temperature u delta_energy : ℝ)
    (st0 st3 : MCState ι)
    (hst3 : st3 = VerletSGLD.final_step h c
      (interior.foldl (fun s ν => VerletSGLD.step a h c gradFn ν s)
        (VerletSGLD.initial_step a h c gradFn ν1 true st0)))
    (hrej : Real.exp (-delta_energy / temperature) < u) :
    ((VerletSGLD.maybe_reject temperature u delta_energy st3).1 = true ↔
      Real.exp (-delta_energy / temperature) < u)
    ∧ (VerletSGLD.maybe_reject temperature u delta_energy st3).2.params =
      st0.params
    ∧ (VerletSGLD.maybe_reject temperature u delta_energy st3).2.momenta =
      st0.momenta
    ∧ lossFn (VerletSGLD.maybe_reject temperature u delta_energy
        st3).2.params = lossFn st0.params := by
  have hsaved : st3.saved = some (st0.params, st0.momenta) := by
    rw [hst3]
    show (interior.foldl (fun s ν => VerletSGLD.step a h c gradFn ν s)
      (VerletSGLD.initial_step a h c gradFn ν1 true st0)).saved = _
    rw [foldl_step_saved]
    rfl
  refine ⟨?_, ?_, ?_, ?_⟩ <;>
    simp [VerletSGLD.maybe_reject, hrej, hsaved]

theorem maybe_reject_restores_saved_state_witness :
    (Real.exp (-(0 : ℝ) / 1) < 2) ∧
    (((VerletSGLD.maybe_reject 1 2 0 (VerletSGLD.final_step 1 1
        (VerletSGLD.initial_step 1 1 1 (fun p => p) (fun _ => 0) true
          mcW))).1 = true ↔ Real.exp (-(0 : ℝ) / 1) < 2)
    ∧ (VerletSGLD.maybe_reject 1 2 0 (VerletSGLD.final_step 1 1
        (VerletSGLD.initial_step 1 1 1 (fun p => p) (fun _ => 0) true
          mcW))).2.params = mcW.params
    ∧ (VerletSGLD.maybe_reject 1 2 0 (VerletSGLD.final_step 1 1
        (VerletSGLD.initial_step 1 1 1 (fun p => p) (fun _ => 0) true
          mcW))).2.momenta = mcW.momenta
    ∧ (fun p : Unit → ℚ => p ()) (VerletSGLD.maybe_reject 1 2 0
        (VerletSGLD.final_step 1 1 (VerletSGLD.initial_step 1 1 1
          (fun p => p) (fun _ => 0) true mcW))).2.params =
      (fun p : Unit → ℚ => p ()) mcW.params) := by
  have hrej : Real.exp (-(0 : ℝ) / 1) < 2 := by
    rw [neg_zero, zero_div, Real.exp_zero]
    norm_num
  exact ⟨hrej, maybe_reject_restores_saved_state 1 1 1 (fun p => p)
    (fun p : Unit → ℚ => p ()) (fun _ => 0) [] 1 2 0 mcW _ rfl hrej⟩

theorem potential_always_configured_temperature_witness :
    (evW ∈ (SGLDRunner.run runnerA ([0] : List ℕ) (fun _ _ => (1, 1, 1))
      (fun _ => 1) (fun _ => [2]) (fun _ => 0) 1).batchEvents) ∧
    (evW.potentialTemp = runnerA.temperature ∧
      ((evW.epoch : ℤ) < runnerA.descent_epochs → evW.groupTemp = 0)) :=
  ⟨by decide,
    potential_always_configured_temperature runnerA ([0] : List ℕ)
      (fun _ _ => (1, 1, 1)) (fun _ => 1) (fun _ => [2]) (fun _ => 0) 1 evW
      (by decide)⟩
